import Mathlib

/-!
# Verification of the `jx` dependency-resolution and lock-file core

This file gives a shallow embedding, in Lean 4, of the dependency
resolution / lock-file core of the `jx` Java package-manager CLI
(`src/dependency.rs`, `src/resolve.rs`, `src/lock.rs`,
`src/commands/add.rs`), and proves or refutes the specified properties
of that core.

Conventions used throughout:

* Rust `HashMap<String, V>` values are embedded as association lists
  `List (String × V)`; `HashMap::insert` appends a fresh binding or
  replaces an existing one in place, `HashMap::get` is association-list
  lookup.  Equality of hash maps is extensional (same key–value pairs),
  so theorems about maps are stated up to `alookup`.
* Rust `HashSet<String>` values are embedded as `List String` with
  membership; `insert` appends, `remove` erases the element.
* Iteration order of a `HashMap` is arbitrary in Rust; in the embedding
  it is the order of the association list, and any statement that
  depends on iteration order is made for an explicitly given order.
* Fallible Rust functions returning `anyhow::Result` are embedded with
  `Except`, with a dedicated error type carrying the same payload that
  the source formats into its error message.
* `chrono::Utc::now()` is modelled by threading the current timestamp
  in as an explicit `String` argument.
-/

namespace Jx

/-- Decidable equality for `Except`, used to evaluate embedded fallible
functions on concrete inputs. -/
instance {e a : Type} [DecidableEq e] [DecidableEq a] :
    DecidableEq (Except e a) := fun x y =>
  match x, y with
  | Except.ok u, Except.ok v =>
      if h : u = v then isTrue (by rw [h])
      else isFalse (by intro hc; cases hc; exact h rfl)
  | Except.error u, Except.error v =>
      if h : u = v then isTrue (by rw [h])
      else isFalse (by intro hc; cases hc; exact h rfl)
  | Except.ok _, Except.error _ => isFalse (by intro hc; cases hc)
  | Except.error _, Except.ok _ => isFalse (by intro hc; cases hc)

/-- Splitting a character list at every occurrence of `sep`; helper for
`rustSplit`. -/
def splitOnCharList (sep : Char) : List Char → List (List Char)
  | [] => [[]]
  | c :: t =>
    let r := splitOnCharList sep t
    if c = sep then [] :: r
    else
      match r with
      | h :: t2 => (c :: h) :: t2
      | [] => [[c]]

/-- The embedding of Rust `str::split(sep).collect::<Vec<&str>>()` for a
single-character separator: the maximal `sep`-free substrings, in
order, with empty fields kept (`"".split(sep)` gives `[""]`). -/
def rustSplit (s : String) (sep : Char) : List String :=
  (splitOnCharList sep s.data).map String.mk

/-- Association-list lookup; the embedding of `HashMap::get` for
string-keyed maps. -/
def alookup {α : Type} : List (String × α) → String → Option α
  | [], _ => none
  | (k, v) :: t, q => if q = k then some v else alookup t q

@[simp] theorem alookup_nil {α : Type} (q : String) :
    alookup ([] : List (String × α)) q = none := rfl

@[simp] theorem alookup_cons {α : Type} (k : String) (v : α)
    (t : List (String × α)) (q : String) :
    alookup ((k, v) :: t) q = if q = k then some v else alookup t q := rfl

/-- Association-list insert-or-replace; the embedding of
`HashMap::insert`.  A fresh key is appended, an existing key's value is
replaced in place. -/
def ainsert {α : Type} : List (String × α) → String → α → List (String × α)
  | [], k, v => [(k, v)]
  | (k', v') :: t, k, v =>
      if k = k' then (k', v) :: t else (k', v') :: ainsert t k v

@[simp] theorem ainsert_nil {α : Type} (k : String) (v : α) :
    ainsert ([] : List (String × α)) k v = [(k, v)] := rfl

@[simp] theorem ainsert_cons {α : Type} (k' : String) (v' : α)
    (t : List (String × α)) (k : String) (v : α) :
    ainsert ((k', v') :: t) k v =
      if k = k' then (k', v) :: t else (k', v') :: ainsert t k v := rfl

/-- Looking a key up after an insert-or-replace: the inserted key maps
to the new value, every other key is unchanged. -/
theorem alookup_ainsert {α : Type} (m : List (String × α)) (k : String)
    (v : α) (q : String) :
    alookup (ainsert m k v) q = if q = k then some v else alookup m q := by
  induction m with
  | nil => simp [alookup]
  | cons p t ih =>
    obtain ⟨k', v'⟩ := p
    by_cases hkk : k = k'
    · subst hkk
      by_cases hq : q = k <;> simp [alookup, hq]
    · by_cases hq' : q = k'
      · subst hq'
        have hqk : ¬ q = k := fun h => hkk h.symm
        simp [alookup, hkk, hqk]
      · simp [alookup, hkk, hq', ih]

/-- Case split form of `alookup_ainsert`. -/
theorem alookup_ainsert_cases {α : Type} (m : List (String × α))
    (k : String) (v : α) (q : String) :
    (q = k ∧ alookup (ainsert m k v) q = some v) ∨
    (q ≠ k ∧ alookup (ainsert m k v) q = alookup m q) := by
  by_cases hq : q = k
  · exact Or.inl ⟨hq, by rw [alookup_ainsert, if_pos hq]⟩
  · exact Or.inr ⟨hq, by rw [alookup_ainsert, if_neg hq]⟩

/-! ## Data model (`src/dependency.rs`) -/

/-- `DependencyScope` from `src/dependency.rs`. -/
inductive DependencyScope : Type
  | Compile
  | Runtime
  | Test
  | Provided
  | System
deriving DecidableEq, Repr

/-- `Exclusion` from `src/dependency.rs`. -/
structure Exclusion : Type where
  group_id : String
  artifact_id : String
deriving DecidableEq, Repr

/-- `Dependency` from `src/dependency.rs`. -/
structure Dependency : Type where
  group_id : String
  artifact_id : String
  version : String
  scope : DependencyScope
  classifier : Option String
  exclusions : List Exclusion
  optional : Bool
deriving DecidableEq, Repr

/-- `Dependency::new` from `src/dependency.rs`. -/
def Dependency.new (group_id artifact_id version : String) : Dependency :=
  { group_id := group_id
    artifact_id := artifact_id
    version := version
    scope := DependencyScope.Compile
    classifier := none
    exclusions := []
    optional := false }

/-- `Dependency::coordinate` from `src/dependency.rs`:
`format!("{}:{}:{}", group_id, artifact_id, version)`. -/
def Dependency.coordinate (d : Dependency) : String :=
  d.group_id ++ ":" ++ d.artifact_id ++ ":" ++ d.version

/-! ## Coordinate parsing (`src/commands/add.rs`) -/

/-- `DependencyInfo` from `src/commands/add.rs`. -/
structure DependencyInfo : Type where
  group_id : String
  artifact_id : String
  version : Option String
deriving DecidableEq, Repr

/-- `ParseError` payload: the source returns `anyhow!("无效的依赖坐标格式，
应为 groupId:artifactId 或 groupId:artifactId:version")`; the embedding
keeps the offending error as a unit-like constructor. -/
inductive ParseError : Type
  | invalidCoordinate
deriving DecidableEq, Repr

/-- `parse_dependency_coordinate` from `src/commands/add.rs`: split the
input on `':'`; two fields give `{group, artifact, version: None}`,
three fields give `{group, artifact, version: Some v}`, any other field
count is an error.  No emptiness check is performed on the fields. -/
def parse_dependency_coordinate (coordinate : String) :
    Except ParseError DependencyInfo :=
  let parts := rustSplit coordinate ':'
  match parts with
  | [g, a] => Except.ok { group_id := g, artifact_id := a, version := none }
  | [g, a, v] =>
      Except.ok { group_id := g, artifact_id := a, version := some v }
  | _ => Except.error ParseError.invalidCoordinate

/-- C5: the coordinate parser maps `"g:a:1.0"` to
`{group := g, artifact := a, version := 1.0}`, maps `"g:a"` to
`{group := g, artifact := a, version unset}`, and fails with the
invalid-coordinate error on every input whose colon-delimited field
count is neither 2 nor 3 (such as `"g"` and `"g:a:1.0:extra"`). -/
theorem parse_dependency_coordinate_grammar :
    parse_dependency_coordinate "g:a:1.0" =
      Except.ok { group_id := "g", artifact_id := "a", version := some "1.0" } ∧
    parse_dependency_coordinate "g:a" =
      Except.ok { group_id := "g", artifact_id := "a", version := none } ∧
    (∀ s : String, (rustSplit s ':').length ≠ 2 →
      (rustSplit s ':').length ≠ 3 →
      parse_dependency_coordinate s = Except.error ParseError.invalidCoordinate) := by
  refine ⟨by decide, by decide, ?_⟩
  intro s h2 h3
  unfold parse_dependency_coordinate
  rcases hs : rustSplit s ':' with _ | ⟨a, _ | ⟨b, _ | ⟨c, _ | d⟩⟩⟩
  · rfl
  · rfl
  · exact absurd (by rw [hs]; rfl : (rustSplit s ':').length = 2) h2
  · exact absurd (by rw [hs]; rfl : (rustSplit s ':').length = 3) h3
  · rfl

/-- Witness for C5: the general wrong-field-count clause applied at the
concrete inputs `"g"` (one field) and `"g:a:1.0:extra"` (four fields). -/
theorem parse_dependency_coordinate_grammar_witness :
    parse_dependency_coordinate "g" = Except.error ParseError.invalidCoordinate ∧
    parse_dependency_coordinate "g:a:1.0:extra" =
      Except.error ParseError.invalidCoordinate :=
  ⟨parse_dependency_coordinate_grammar.2.2 "g" (by decide) (by decide),
   parse_dependency_coordinate_grammar.2.2 "g:a:1.0:extra" (by decide) (by decide)⟩

/-- C6 counterexample: the parser performs no emptiness validation, so
`":a"`, `"g:"` and `"g::1.0"` are all accepted, producing coordinates
with an empty group or artifact, rather than being rejected. -/
theorem parse_dependency_coordinate_empty_fields_counterexample :
    parse_dependency_coordinate ":a" =
      Except.ok { group_id := "", artifact_id := "a", version := none } ∧
    parse_dependency_coordinate "g:" =
      Except.ok { group_id := "g", artifact_id := "", version := none } ∧
    parse_dependency_coordinate "g::1.0" =
      Except.ok { group_id := "g", artifact_id := "", version := some "1.0" } := by
  decide

/-- C6 amended: for every input string with a valid colon-delimited
field count (2 or 3 fields) the parser succeeds and returns the fields
verbatim, even when the group or artifact field is empty; no emptiness
check is performed. -/
theorem parse_dependency_coordinate_accepts_empty_fields :
    (∀ s g a, rustSplit s ':' = [g, a] →
      parse_dependency_coordinate s =
        Except.ok { group_id := g, artifact_id := a, version := none }) ∧
    (∀ s g a v, rustSplit s ':' = [g, a, v] →
      parse_dependency_coordinate s =
        Except.ok { group_id := g, artifact_id := a, version := some v }) := by
  constructor
  · intro s g a hs
    unfold parse_dependency_coordinate
    rw [hs]
  · intro s g a v hs
    unfold parse_dependency_coordinate
    rw [hs]

/-- Witness for the amended C6: applied at `"::c"`, which has three
fields, the first two empty. -/
theorem parse_dependency_coordinate_accepts_empty_fields_witness :
    parse_dependency_coordinate "::c" =
      Except.ok { group_id := "", artifact_id := "", version := some "c" } :=
  parse_dependency_coordinate_accepts_empty_fields.2 "::c" "" "" "c" (by decide)

/-! ## Resolver (`src/resolve.rs`) -/

/-- The fields of `DependencyResolver`: `resolved` maps coordinate keys
to their resolved `Dependency`, `unresolved` is declared in the source
but never written to, `in_progress` holds the keys currently being
expanded (cycle detection). -/
structure ResolverState : Type where
  resolved : List (String × Dependency)
  unresolved : List String
  in_progress : List String
deriving DecidableEq, Repr

/-- `DependencyResolver::new`. -/
def ResolverState.new : ResolverState :=
  { resolved := [], unresolved := [], in_progress := [] }

/-- Errors of the resolver.  `cycle key` is the source's
`anyhow!("检测到循环依赖: {}", key)`; `outOfFuel` is a modelling artifact
of the explicit recursion-depth bound and is never produced when enough
fuel is supplied. -/
inductive ResolveError : Type
  | cycle (key : String)
  | outOfFuel
deriving DecidableEq, Repr

/-- `DependencyResolver::resolve_transitive_dependencies` from
`src/resolve.rs`: an unimplemented stub (`TODO: 实现传递依赖解析`) that
always returns the empty vector. -/
def resolve_transitive_dependencies (_st : ResolverState) (_dep : Dependency) :
    Except ResolveError (List Dependency) :=
  Except.ok []

/-- `DependencyResolver::resolve_dependency` from `src/resolve.rs`,
with the source's stub transitive expansion: memo check, in-progress
cycle check, mark in-progress, expand (stub), record in `resolved`,
unmark in-progress.  Returns the result together with the mutated
resolver state. -/
def resolve_dependency (st : ResolverState) (dep : Dependency) :
    Except ResolveError (List Dependency) × ResolverState :=
  let key := dep.coordinate
  match alookup st.resolved key with
  | some r => (Except.ok [r], st)
  | none =>
    if key ∈ st.in_progress then (Except.error (ResolveError.cycle key), st)
    else
      let st1 := { st with in_progress := st.in_progress ++ [key] }
      match resolve_transitive_dependencies st1 dep with
      | Except.error e => (Except.error e, st1)
      | Except.ok transitive =>
        let st2 := { st1 with
          resolved := ainsert st1.resolved key dep,
          in_progress := st1.in_progress.erase key }
        (Except.ok (dep :: transitive), st2)

/-- `DependencyResolver::resolve_dependencies` from `src/resolve.rs`:
resolve each spec in order, extending the flat result vector; an error
aborts the whole call. -/
def resolve_dependencies (st : ResolverState) :
    List Dependency → Except ResolveError (List Dependency) × ResolverState
  | [] => (Except.ok [], st)
  | d :: ds =>
    match resolve_dependency st d with
    | (Except.error e, st') => (Except.error e, st')
    | (Except.ok l, st') =>
      match resolve_dependencies st' ds with
      | (Except.error e, st'') => (Except.error e, st'')
      | (Except.ok ls, st'') => (Except.ok (l ++ ls), st'')

/-- `ConflictType` from `src/resolve.rs`. -/
inductive ConflictType : Type
  | VersionConflict
  | ScopeConflict
  | OptionalConflict
deriving DecidableEq, Repr

/-- `DependencyConflict` from `src/resolve.rs`. -/
structure DependencyConflict : Type where
  group_id : String
  artifact_id : String
  versions : List String
  conflict_type : ConflictType
deriving DecidableEq, Repr

/-- The loop body of `DependencyResolver::detect_conflicts` from
`src/resolve.rs`: iterate over the resolved values; for each value
build the `group:artifact` key, fetch (or create) that key's inner
version map, and look the value's version up in it; a hit whose stored
version differs from the value's version pushes a `VersionConflict`,
a miss records `version ↦ version` in the inner map. -/
def detect_conflicts_loop :
    List Dependency → List DependencyConflict →
    List (String × List (String × String)) → List DependencyConflict
  | [], conflicts, _ => conflicts
  | dep :: rest, conflicts, version_map =>
    let key := dep.group_id ++ ":" ++ dep.artifact_id
    let versions := (alookup version_map key).getD []
    match alookup versions dep.version with
    | some existing_version =>
      if existing_version ≠ dep.version then
        detect_conflicts_loop rest
          (conflicts ++ [{ group_id := dep.group_id
                           artifact_id := dep.artifact_id
                           versions := [existing_version, dep.version]
                           conflict_type := ConflictType.VersionConflict }])
          version_map
      else
        detect_conflicts_loop rest conflicts version_map
    | none =>
      detect_conflicts_loop rest conflicts
        (ainsert version_map key (ainsert versions dep.version dep.version))

/-- `DependencyResolver::detect_conflicts` from `src/resolve.rs`. -/
def detect_conflicts (st : ResolverState) : List DependencyConflict :=
  detect_conflicts_loop (st.resolved.map Prod.snd) [] []

/-- The embedding of `DependencyResolver::topological_sort` from
`src/resolve.rs`: the traversal of the node's transitive dependencies
is a commented-out TODO in the source, so the body only performs the
temporary-mark bookkeeping and pushes the key.  Returns the updated
`(visited, temp_visited, order)`. -/
def topological_sort (key : String) (visited temp_visited order : List String) :
    Except ResolveError (List String × List String × List String) :=
  if key ∈ temp_visited then Except.error (ResolveError.cycle key)
  else if key ∈ visited then Except.ok (visited, temp_visited, order)
  else
    let temp1 := temp_visited ++ [key]
    let temp2 := temp1.erase key
    Except.ok (visited ++ [key], temp2, order ++ [key])

/-- The loop of `DependencyResolver::get_resolution_order`: visit each
resolved key; a sort failure prints a warning and continues with the
state unchanged. -/
def get_resolution_order_loop :
    List String → List String → List String → List String → List String
  | [], _, _, order => order
  | key :: rest, visited, temp_visited, order =>
    if key ∈ visited then get_resolution_order_loop rest visited temp_visited order
    else
      match topological_sort key visited temp_visited order with
      | Except.error _ => get_resolution_order_loop rest visited temp_visited order
      | Except.ok (v', t', o') => get_resolution_order_loop rest v' t' o'

/-- `DependencyResolver::get_resolution_order` from `src/resolve.rs`:
run the (traversal-free) topological sort over every resolved key,
then reverse the collected order. -/
def get_resolution_order (st : ResolverState) : List String :=
  (get_resolution_order_loop (st.resolved.map Prod.fst) [] [] []).reverse

/-- Modelled from the spec: `resolve_transitive_dependencies` in
`src/resolve.rs` is an unimplemented TODO stub (the source comments
that it should query Maven Central), so the transitive expansion the
spec describes is missing from `src/`.  Following §4.1 and §6 of the
spec, the metadata source is an injected collaborator `transitive_of`
mapping a coordinate key to the list of its direct transitive specs,
and each returned spec is recursively resolved through the
memo/in-progress logic, which is taken verbatim from the source's
`resolve_dependency`.  `fuel` bounds the recursion depth and is a
modelling artifact (every theorem supplies enough fuel).  The third
component of the result is the list of coordinate keys on which
`transitive_of` was invoked, in call order — the observable
"expansion was performed" trace of §8 item 3. -/
def resolve_run (transitive_of : String → List Dependency) :
    Nat → ResolverState → List Dependency →
    Except ResolveError (List Dependency) × ResolverState × List String
  | _, st, [] => (Except.ok [], st, [])
  | 0, st, _ :: _ => (Except.error ResolveError.outOfFuel, st, [])
  | fuel + 1, st, dep :: rest =>
    let key := dep.coordinate
    match alookup st.resolved key with
    | some r =>
      match resolve_run transitive_of fuel st rest with
      | (Except.error e, st', tr) => (Except.error e, st', tr)
      | (Except.ok ls, st', tr) => (Except.ok (r :: ls), st', tr)
    | none =>
      if key ∈ st.in_progress then
        (Except.error (ResolveError.cycle key), st, [])
      else
        let st1 := { st with in_progress := st.in_progress ++ [key] }
        match resolve_run transitive_of fuel st1 (transitive_of key) with
        | (Except.error e, st2, tr) => (Except.error e, st2, key :: tr)
        | (Except.ok tdeps, st2, tr) =>
          let st3 := { st2 with
            resolved := ainsert st2.resolved key dep,
            in_progress := st2.in_progress.erase key }
          match resolve_run transitive_of fuel st3 rest with
          | (Except.error e, st4, tr') => (Except.error e, st4, key :: (tr ++ tr'))
          | (Except.ok ls, st4, tr') =>
              (Except.ok (dep :: (tdeps ++ ls)), st4, key :: (tr ++ tr'))

/-! ## C1: conflict detection -/

/-- The top-level spec `a:b:1.0` of the conflict scenario. -/
def conflictDepA : Dependency := Dependency.new "a" "b" "1.0"

/-- The top-level spec `a:b:2.0` of the conflict scenario. -/
def conflictDepB : Dependency := Dependency.new "a" "b" "2.0"

/-- C1, evaluated at the failing input: resolving the top-level specs
`a:b:1.0` and `a:b:2.0` succeeds and leaves both versions of the same
`(group, artifact)` in the resolved map, yet `detect_conflicts`
returns the empty list — no `VersionConflict` is emitted.  The inner
version map is keyed by version and stores `version ↦ version`, so the
lookup `versions.get(&dep.version)` can only ever return the version
being inserted and the `existing_version != dep.version` branch is
unreachable. -/
theorem detect_conflicts_misses_version_conflict :
    (resolve_dependencies ResolverState.new [conflictDepA, conflictDepB]).1 =
      Except.ok [conflictDepA, conflictDepB] ∧
    ((resolve_dependencies ResolverState.new
        [conflictDepA, conflictDepB]).2.resolved.map Prod.fst) =
      ["a:b:1.0", "a:b:2.0"] ∧
    detect_conflicts
      (resolve_dependencies ResolverState.new [conflictDepA, conflictDepB]).2 =
      [] := by
  decide

/-- Supporting fact, not tied to one input: the version-conflict branch
of `detect_conflicts` is dead code.  The inner map only ever stores
bindings `v ↦ v`, so the guard `existing_version != dep.version` never
fires and `detect_conflicts` returns the accumulated list unchanged —
the empty list — for every resolver state. -/
theorem detect_conflicts_always_empty (st : ResolverState) :
    detect_conflicts st = [] := by
  have key : ∀ (deps : List Dependency) (conflicts : List DependencyConflict)
      (vm : List (String × List (String × String))),
      (∀ g m, alookup vm g = some m → ∀ v ev, alookup m v = some ev → ev = v) →
      detect_conflicts_loop deps conflicts vm = conflicts := by
    intro deps
    induction deps with
    | nil => intro conflicts vm _; rfl
    | cons dep rest ih =>
      intro conflicts vm hinv
      simp only [detect_conflicts_loop]
      have hvers : ∀ v ev,
          alookup ((alookup vm (dep.group_id ++ ":" ++ dep.artifact_id)).getD []) v =
            some ev → ev = v := by
        cases hg : alookup vm (dep.group_id ++ ":" ++ dep.artifact_id) with
        | none => intro v ev h; simp at h
        | some m => intro v ev h; exact hinv _ m hg v ev (by simpa using h)
      cases hl : alookup
          ((alookup vm (dep.group_id ++ ":" ++ dep.artifact_id)).getD [])
          dep.version with
      | some ev =>
        have hev : ev = dep.version := hvers _ _ hl
        simp only [hl, hev, ne_eq, not_true_eq_false, if_neg, ite_false]
        exact ih conflicts vm hinv
      | none =>
        simp only [hl]
        apply ih
        intro g m hg v ev hv
        rcases alookup_ainsert_cases vm (dep.group_id ++ ":" ++ dep.artifact_id)
          (ainsert ((alookup vm (dep.group_id ++ ":" ++ dep.artifact_id)).getD [])
            dep.version dep.version) g with hc | hc
        · rw [hc.2] at hg
          cases hg
          rcases alookup_ainsert_cases
            ((alookup vm (dep.group_id ++ ":" ++ dep.artifact_id)).getD [])
            dep.version dep.version v with hd | hd
          · rw [hd.2] at hv; cases hv; exact hd.1.symm
          · exact hvers v ev (by rw [← hd.2]; exact hv)
        · exact hinv g m (by rw [← hc.2]; exact hg) v ev hv
  exact key _ [] [] (by intro g m h; simp at h)

/-! ## C3: cycle detection (spec-modelled transitive expansion) -/

/-- C3: for any two specs `A`, `B` with distinct coordinate keys, under
a metadata source in which `A` requires `B` and `B` requires `A`,
`resolve` on a fresh resolver fails the whole call with the cycle
error (so no partial result is returned), and no entry is added to the
resolved memo. -/
theorem resolve_cycle_error (A B : Dependency) (k : Nat)
    (hAB : A.coordinate ≠ B.coordinate) :
    (resolve_run
      (fun key => if key = A.coordinate then [B]
        else if key = B.coordinate then [A] else [])
      (k + 3) ResolverState.new [A]).1 =
      Except.error (ResolveError.cycle A.coordinate) ∧
    (resolve_run
      (fun key => if key = A.coordinate then [B]
        else if key = B.coordinate then [A] else [])
      (k + 3) ResolverState.new [A]).2.1.resolved = [] := by
  simp [resolve_run, ResolverState.new, hAB, Ne.symm hAB]

/-- Witness for C3 at the concrete mutually-recursive pair
`g:a:1.0 ↔ g:b:1.0`. -/
theorem resolve_cycle_error_witness :
    (resolve_run
      (fun key => if key = (Dependency.new "g" "a" "1.0").coordinate
          then [Dependency.new "g" "b" "1.0"]
        else if key = (Dependency.new "g" "b" "1.0").coordinate
          then [Dependency.new "g" "a" "1.0"] else [])
      3 ResolverState.new [Dependency.new "g" "a" "1.0"]).1 =
      Except.error (ResolveError.cycle
        (Dependency.new "g" "a" "1.0").coordinate) ∧
    (resolve_run
      (fun key => if key = (Dependency.new "g" "a" "1.0").coordinate
          then [Dependency.new "g" "b" "1.0"]
        else if key = (Dependency.new "g" "b" "1.0").coordinate
          then [Dependency.new "g" "a" "1.0"] else [])
      3 ResolverState.new [Dependency.new "g" "a" "1.0"]).2.1.resolved = [] :=
  resolve_cycle_error (Dependency.new "g" "a" "1.0")
    (Dependency.new "g" "b" "1.0") 0 (by decide)

/-! ## C4: diamond dependencies (spec-modelled transitive expansion) -/

/-- Top-level spec `ga:aa:1.0` of the diamond scenario. -/
def diamondDepA : Dependency := Dependency.new "ga" "aa" "1.0"

/-- Top-level spec `gb:ab:1.0` of the diamond scenario. -/
def diamondDepB : Dependency := Dependency.new "gb" "ab" "1.0"

/-- The shared transitive coordinate `X:Y:1.0` of the diamond
scenario. -/
def diamondDepX : Dependency := Dependency.new "X" "Y" "1.0"

/-- The diamond metadata source: both top-level specs require
`X:Y:1.0`, which has no further dependencies. -/
def diamondSource (k : String) : List Dependency :=
  if k = "ga:aa:1.0" then [diamondDepX]
  else if k = "gb:ab:1.0" then [diamondDepX] else []

/-- C4 counterexample: resolving two distinct specs that both require
`X:Y:1.0` returns the flat list `[A, X, B, X]`, in which the entry for
`X:Y:1.0` occurs twice, not exactly once — the memo-hit branch returns
the cached entry again for every later referencing branch, and
`resolve_dependencies` concatenates the per-spec results. -/
theorem resolve_diamond_duplicate_counterexample :
    (resolve_run diamondSource 5 ResolverState.new
      [diamondDepA, diamondDepB]).1 =
      Except.ok [diamondDepA, diamondDepX, diamondDepB, diamondDepX] ∧
    [diamondDepA, diamondDepX, diamondDepB, diamondDepX].count diamondDepX =
      2 := by
  decide

/-- C4 amended: for any distinct specs `A`, `B` that both require the
same coordinate `X`, resolving `[A, B]` succeeds; the resolved memo
gains exactly one entry for `X`'s key, and the metadata source is
invoked on `X`'s key exactly once (the second branch reuses the memo);
the flat returned list, however, contains one occurrence of `X` per
referencing branch — `[A, X, B, X]` — rather than exactly one entry. -/
theorem resolve_diamond_memoized (A B X : Dependency) (k : Nat)
    (hAB : A.coordinate ≠ B.coordinate)
    (hAX : A.coordinate ≠ X.coordinate)
    (hBX : B.coordinate ≠ X.coordinate) :
    (resolve_run
      (fun key => if key = A.coordinate then [X]
        else if key = B.coordinate then [X] else [])
      (k + 3) ResolverState.new [A, B]) =
      (Except.ok [A, X, B, X],
       { resolved := [(X.coordinate, X), (A.coordinate, A), (B.coordinate, B)]
         unresolved := [], in_progress := [] },
       [A.coordinate, X.coordinate, B.coordinate]) ∧
    (((resolve_run
      (fun key => if key = A.coordinate then [X]
        else if key = B.coordinate then [X] else [])
      (k + 3) ResolverState.new [A, B]).2.1.resolved.map Prod.fst).count
        X.coordinate) = 1 ∧
    ((resolve_run
      (fun key => if key = A.coordinate then [X]
        else if key = B.coordinate then [X] else [])
      (k + 3) ResolverState.new [A, B]).2.2.count X.coordinate) = 1 := by
  have hchar :
      (resolve_run
        (fun key => if key = A.coordinate then [X]
          else if key = B.coordinate then [X] else [])
        (k + 3) ResolverState.new [A, B]) =
        (Except.ok [A, X, B, X],
         { resolved := [(X.coordinate, X), (A.coordinate, A), (B.coordinate, B)]
           unresolved := [], in_progress := [] },
         [A.coordinate, X.coordinate, B.coordinate]) := by
    simp [resolve_run, ResolverState.new, hAB, hAX, hBX,
      Ne.symm hAB, Ne.symm hAX, Ne.symm hBX]
  refine ⟨hchar, ?_, ?_⟩
  · rw [hchar]
    simp [List.count_cons, hAX, hBX, Ne.symm hAX, Ne.symm hBX]
  · rw [hchar]
    simp [List.count_cons, hAX, hBX, Ne.symm hAX, Ne.symm hBX]

/-- Witness for the amended C4 at the concrete diamond
`ga:aa:1.0, gb:ab:1.0 → X:Y:1.0`. -/
theorem resolve_diamond_memoized_witness :
    (resolve_run
      (fun key => if key = diamondDepA.coordinate then [diamondDepX]
        else if key = diamondDepB.coordinate then [diamondDepX] else [])
      3 ResolverState.new [diamondDepA, diamondDepB]).2.2.count
        diamondDepX.coordinate = 1 :=
  (resolve_diamond_memoized diamondDepA diamondDepB diamondDepX 0
    (by decide) (by decide) (by decide)).2.2

/-! ## C7: resolution order -/

/-- Top-level spec `g:a:1.0` of the ordering scenario; it depends on
`g:b:1.0`. -/
def orderDepA : Dependency := Dependency.new "g" "a" "1.0"

/-- Transitive dependency `g:b:1.0` of the ordering scenario. -/
def orderDepB : Dependency := Dependency.new "g" "b" "1.0"

/-- Metadata source of the ordering scenario: `A` requires `B`. -/
def orderSource (k : String) : List Dependency :=
  if k = "g:a:1.0" then [orderDepB] else []

/-- C7 counterexample: in the resolver state produced by resolving `A`
(which depends on `B`), the dependency `B` is inserted into the
resolved map before `A`, and `get_resolution_order` — whose edge
traversal is a commented-out TODO — returns the keys in reverse
iteration order, i.e. `[A, B]`: `B`'s key does NOT appear before `A`'s
key. -/
theorem get_resolution_order_counterexample :
    (resolve_run orderSource 3 ResolverState.new [orderDepA]).1 =
      Except.ok [orderDepA, orderDepB] ∧
    ((resolve_run orderSource 3 ResolverState.new
        [orderDepA]).2.1.resolved.map Prod.fst) =
      ["g:b:1.0", "g:a:1.0"] ∧
    get_resolution_order
      (resolve_run orderSource 3 ResolverState.new [orderDepA]).2.1 =
      ["g:a:1.0", "g:b:1.0"] := by
  decide

/-- Helper for the amended C7: with no temporary marks and no key of
`keys` already visited, the `get_resolution_order` loop appends the
keys to `order` in iteration order (each `topological_sort` call only
pushes its key — the edge traversal is a TODO in the source). -/
theorem get_resolution_order_loop_eq (keys : List String) :
    ∀ (visited order : List String), keys.Nodup →
      (∀ k ∈ keys, k ∉ visited) →
      get_resolution_order_loop keys visited [] order = order ++ keys := by
  induction keys with
  | nil => intro visited order _ _; simp [get_resolution_order_loop]
  | cons key rest ih =>
    intro visited order hnd hdisj
    have hkv : key ∉ visited := hdisj key (by simp)
    simp only [get_resolution_order_loop, topological_sort,
      List.not_mem_nil, if_false, if_neg hkv, List.nil_append,
      List.erase_cons_head]
    rw [ih (visited ++ [key]) (order ++ [key]) (List.Nodup.of_cons hnd) ?_]
    · simp
    · intro q hq
      simp only [List.mem_append, List.mem_singleton]
      rintro (hv | rfl)
      · exact hdisj q (List.mem_cons_of_mem _ hq) hv
      · exact (List.nodup_cons.mp hnd).1 hq

/-- C7 amended: `get_resolution_order` performs no dependency-edge
traversal (the traversal is a commented-out TODO in the source); it
returns the resolved coordinate keys in reverse iteration order of the
resolved map, so no dependencies-before-dependents guarantee holds —
in particular, since a dependency's entry is inserted into the memo
before its dependent's entry, the dependent's key comes first. -/
theorem get_resolution_order_eq_reverse (st : ResolverState)
    (h : (st.resolved.map Prod.fst).Nodup) :
    get_resolution_order st = (st.resolved.map Prod.fst).reverse := by
  unfold get_resolution_order
  rw [get_resolution_order_loop_eq _ [] [] h (by simp)]
  simp

/-- Witness for the amended C7 at a concrete two-entry resolver
state. -/
theorem get_resolution_order_eq_reverse_witness :
    get_resolution_order
      { resolved := [("g:b:1.0", orderDepB), ("g:a:1.0", orderDepA)]
        unresolved := [], in_progress := [] } =
      ["g:a:1.0", "g:b:1.0"] :=
  get_resolution_order_eq_reverse
    { resolved := [("g:b:1.0", orderDepB), ("g:a:1.0", orderDepA)]
      unresolved := [], in_progress := [] } (by decide)

/-! ## Lock file (`src/lock.rs`) -/

/-- Association-list removal; the embedding of `HashMap::remove`
(restricted to its effect on the map — the caller only inspects
`is_some()` of the returned value, which is `alookup` here). -/
def aremove {α : Type} : List (String × α) → String → List (String × α)
  | [], _ => []
  | (k, v) :: t, q => if q = k then t else (k, v) :: aremove t q

/-- `LockedDependency` from `src/lock.rs`. -/
structure LockedDependency : Type where
  group_id : String
  artifact_id : String
  version : String
  classifier : Option String
  scope : String
  checksum : String
  url : String
  dependencies : List String
deriving DecidableEq, Repr

/-- `LockMetadata` from `src/lock.rs` (`total_dependencies: usize`,
`total_size: u64` embedded as `Nat`). -/
structure LockMetadata : Type where
  created_at : String
  updated_at : String
  total_dependencies : Nat
  total_size : Nat
deriving DecidableEq, Repr

/-- `LockFile` from `src/lock.rs`; the `dependencies` hash map is
embedded as an association list. -/
structure LockFile : Type where
  version : String
  dependencies : List (String × LockedDependency)
  metadata : LockMetadata
deriving DecidableEq, Repr

/-- `LockedDependency::coordinate` from `src/lock.rs`. -/
def LockedDependency.coordinate (d : LockedDependency) : String :=
  d.group_id ++ ":" ++ d.artifact_id ++ ":" ++ d.version

/-- `LockFile::new` from `src/lock.rs`; `now` models
`chrono::Utc::now().to_rfc3339()`. -/
def LockFile.new (now : String) : LockFile :=
  { version := "1.0"
    dependencies := []
    metadata := { created_at := now, updated_at := now
                  total_dependencies := 0, total_size := 0 } }

/-- `LockFile::add_dependency` from `src/lock.rs`: insert-or-replace
under the key `group:artifact:version`, then set
`total_dependencies := dependencies.len()` and refresh `updated_at`. -/
def LockFile.add_dependency (lf : LockFile) (dep : LockedDependency)
    (now : String) : LockFile :=
  let key := dep.group_id ++ ":" ++ dep.artifact_id ++ ":" ++ dep.version
  let deps := ainsert lf.dependencies key dep
  { lf with
    dependencies := deps
    metadata := { lf.metadata with
      total_dependencies := deps.length, updated_at := now } }

/-- `LockFile::remove_dependency` from `src/lock.rs`: remove the key
`group:artifact:version`; when an entry was removed, set
`total_dependencies := dependencies.len()` and refresh `updated_at`.
Returns the `bool` result together with the mutated store. -/
def LockFile.remove_dependency (lf : LockFile)
    (group_id artifact_id version now : String) : Bool × LockFile :=
  let key := group_id ++ ":" ++ artifact_id ++ ":" ++ version
  let removed := (alookup lf.dependencies key).isSome
  if removed then
    let deps := aremove lf.dependencies key
    (true,
     { lf with
       dependencies := deps
       metadata := { lf.metadata with
         total_dependencies := deps.length, updated_at := now } })
  else
    (false, lf)

/-- `DependencyTreeNode` from `src/lock.rs`. -/
structure DependencyTreeNode : Type where
  dependency : LockedDependency
  children : List DependencyTreeNode
  depth : Nat
deriving Repr

mutual

/-- `LockFile::build_tree_node` from `src/lock.rs`: mark the node's
coordinate visited, then for each edge in `dep.dependencies` look the
target up in the store; a present and not-yet-visited target is
recursively expanded and pushed as a child, every other edge is
skipped.  `fuel` bounds the recursion depth (modelling artifact; the
visited set makes the real recursion finite and `get_dependency_tree`
supplies sufficient fuel). -/
def build_tree_node (store : List (String × LockedDependency)) :
    Nat → LockedDependency → List String → Nat →
    DependencyTreeNode × List String
  | 0, dep, visited, depth =>
    ({ dependency := dep, children := [], depth := depth },
     visited ++ [dep.coordinate])
  | fuel + 1, dep, visited, depth =>
    let visited1 := visited ++ [dep.coordinate]
    let r := build_tree_children store fuel dep.dependencies visited1 depth
    ({ dependency := dep, children := r.1, depth := depth }, r.2)

/-- The `for dep_coord in &dep.dependencies` loop of
`build_tree_node`. -/
def build_tree_children (store : List (String × LockedDependency)) :
    Nat → List String → List String → Nat →
    List DependencyTreeNode × List String
  | _, [], visited, _ => ([], visited)
  | 0, _ :: _, visited, _ => ([], visited)
  | fuel + 1, dep_coord :: rest, visited, depth =>
    match alookup store dep_coord with
    | none => build_tree_children store fuel rest visited depth
    | some child =>
      if dep_coord ∈ visited then
        build_tree_children store fuel rest visited depth
      else
        let rn := build_tree_node store fuel child visited (depth + 1)
        let rs := build_tree_children store fuel rest rn.2 depth
        (rn.1 :: rs.1, rs.2)

end

/-- The `for (key, dep) in &self.dependencies` loop of
`LockFile::get_dependency_tree`: roots are the entries whose key is
not yet visited. -/
def get_dependency_tree_loop (store : List (String × LockedDependency))
    (fuel : Nat) :
    List (String × LockedDependency) → List String →
    List DependencyTreeNode → List DependencyTreeNode × List String
  | [], visited, tree => (tree, visited)
  | (key, dep) :: rest, visited, tree =>
    if key ∈ visited then
      get_dependency_tree_loop store fuel rest visited tree
    else
      let r := build_tree_node store fuel dep visited 0
      get_dependency_tree_loop store fuel rest r.2 (tree ++ [r.1])

/-- `LockFile::get_dependency_tree` from `src/lock.rs`. -/
def LockFile.get_dependency_tree (lf : LockFile) : List DependencyTreeNode :=
  (get_dependency_tree_loop lf.dependencies (lf.dependencies.length + 1)
    lf.dependencies [] []).1

/-- Inserting an existing key keeps the map size; inserting a fresh key
grows it by one. -/
theorem ainsert_length {α : Type} (m : List (String × α)) (k : String)
    (v : α) :
    (ainsert m k v).length =
      if (alookup m k).isSome then m.length else m.length + 1 := by
  induction m with
  | nil => simp [alookup]
  | cons p t ih =>
    obtain ⟨k', v'⟩ := p
    by_cases hk : k = k'
    · simp [alookup, hk]
    · have hk' : ¬ k = k' := hk
      simp only [ainsert_cons, if_neg hk', alookup_cons, List.length_cons, ih]
      by_cases hs : (alookup t k).isSome <;> simp [hs, hk]

/-- C10: after `add_dependency` and after `remove_dependency`,
`metadata.total_dependencies` equals the number of entries of the
dependency map (assuming the store satisfied that invariant before, as
`LockFile::new` does); and adding an entry whose coordinate key is
already present replaces the existing entry, leaving the entry count
unchanged rather than incremented. -/
theorem lock_total_dependencies_invariant (lf : LockFile)
    (dep : LockedDependency) (g a v now : String)
    (hinv : lf.metadata.total_dependencies = lf.dependencies.length) :
    ((lf.add_dependency dep now).metadata.total_dependencies =
      (lf.add_dependency dep now).dependencies.length) ∧
    ((lf.remove_dependency g a v now).2.metadata.total_dependencies =
      (lf.remove_dependency g a v now).2.dependencies.length) ∧
    ((alookup lf.dependencies
        (dep.group_id ++ ":" ++ dep.artifact_id ++ ":" ++ dep.version)).isSome →
      (lf.add_dependency dep now).dependencies.length =
        lf.dependencies.length) := by
  refine ⟨rfl, ?_, ?_⟩
  · unfold LockFile.remove_dependency
    by_cases hr :
        (alookup lf.dependencies (g ++ ":" ++ a ++ ":" ++ v)).isSome <;>
      simp [hr, hinv]
  · intro hs
    show (ainsert lf.dependencies _ dep).length = _
    rw [ainsert_length, if_pos hs]

/-- A concrete locked dependency used by witnesses. -/
def sampleLockedDep : LockedDependency :=
  { group_id := "g", artifact_id := "a", version := "1.0"
    classifier := none, scope := "compile", checksum := "abc"
    url := "https://repo1.maven.org/g/a/1.0/a-1.0.jar"
    dependencies := [] }

/-- Witness for C10: in a store already containing `g:a:1.0`,
re-adding `g:a:1.0` keeps the entry count at 1, and the metadata
count matches the map size after add and remove. -/
theorem lock_total_dependencies_invariant_witness :
    ((((LockFile.new "t0").add_dependency sampleLockedDep
        "t1").add_dependency sampleLockedDep "t2").dependencies.length =
      ((LockFile.new "t0").add_dependency sampleLockedDep
        "t1").dependencies.length) ∧
    ((((LockFile.new "t0").add_dependency sampleLockedDep
        "t1").add_dependency sampleLockedDep
        "t2").metadata.total_dependencies =
      (((LockFile.new "t0").add_dependency sampleLockedDep
        "t1").add_dependency sampleLockedDep "t2").dependencies.length) :=
  ⟨(lock_total_dependencies_invariant
      ((LockFile.new "t0").add_dependency sampleLockedDep "t1")
      sampleLockedDep "g" "a" "1.0" "t2" (by decide)).2.2 (by decide),
   (lock_total_dependencies_invariant
      ((LockFile.new "t0").add_dependency sampleLockedDep "t1")
      sampleLockedDep "g" "a" "1.0" "t2" (by decide)).1⟩

mutual

/-- All coordinates rendered in a tree node, root first, in rendering
order. -/
def nodeCoords : DependencyTreeNode → List String
  | { dependency := d, children := cs, .. } => d.coordinate :: forestCoords cs

/-- All coordinates rendered in a forest, in rendering order. -/
def forestCoords : List DependencyTreeNode → List String
  | [] => []
  | n :: ns => nodeCoords n ++ forestCoords ns

end

@[simp] theorem forestCoords_nil : forestCoords [] = [] := rfl

@[simp] theorem forestCoords_cons (n : DependencyTreeNode)
    (ns : List DependencyTreeNode) :
    forestCoords (n :: ns) = nodeCoords n ++ forestCoords ns := rfl

@[simp] theorem nodeCoords_mk (d : LockedDependency)
    (cs : List DependencyTreeNode) (depth : Nat) :
    nodeCoords { dependency := d, children := cs, depth := depth } =
      d.coordinate :: forestCoords cs := rfl

/-- A successful lookup comes from a pair of the list. -/
theorem alookup_mem {α : Type} :
    ∀ (l : List (String × α)) (q : String) (v : α),
      alookup l q = some v → (q, v) ∈ l := by
  intro l
  induction l with
  | nil => intro q v h; simp at h
  | cons p t ih =>
    intro q v h
    obtain ⟨k, w⟩ := p
    rw [alookup_cons] at h
    by_cases hq : q = k
    · rw [if_pos hq] at h
      cases h
      subst hq
      exact List.mem_cons_self _ _
    · rw [if_neg hq] at h
      exact List.mem_cons_of_mem _ (ih q v h)

/-- The visited-set bookkeeping of the tree walk: starting from a
duplicate-free visited set that does not contain the root's
coordinate, `build_tree_node` extends the visited set by exactly the
coordinates it renders, and the extended set is still duplicate-free —
so no coordinate is ever rendered twice. -/
theorem build_tree_visited_spec (store : List (String × LockedDependency))
    (hwf : ∀ p ∈ store, (Prod.snd p).coordinate = Prod.fst p) :
    ∀ fuel : Nat,
      (∀ (dep : LockedDependency) (vis : List String) (depth : Nat),
        dep.coordinate ∉ vis → vis.Nodup →
        (build_tree_node store fuel dep vis depth).2 =
          vis ++ nodeCoords (build_tree_node store fuel dep vis depth).1 ∧
        (build_tree_node store fuel dep vis depth).2.Nodup) ∧
      (∀ (coords vis : List String) (depth : Nat),
        vis.Nodup →
        (build_tree_children store fuel coords vis depth).2 =
          vis ++
            forestCoords (build_tree_children store fuel coords vis depth).1 ∧
        (build_tree_children store fuel coords vis depth).2.Nodup) := by
  intro fuel
  induction fuel with
  | zero =>
    constructor
    · intro dep vis depth hnv hnd
      refine ⟨by simp [build_tree_node], ?_⟩
      simp only [build_tree_node]
      simp [List.nodup_append, hnd, hnv]
    · intro coords vis depth hnd
      cases coords <;> simp [build_tree_children, hnd]
  | succ fuel ih =>
    obtain ⟨ihn, ihc⟩ := ih
    constructor
    · intro dep vis depth hnv hnd
      have hvnx : (vis ++ [dep.coordinate]).Nodup := by
        simp [List.nodup_append, hnd, hnv]
      obtain ⟨he, hn⟩ :=
        ihc dep.dependencies (vis ++ [dep.coordinate]) depth hvnx
      constructor
      · simp only [build_tree_node, nodeCoords_mk]
        rw [he]
        simp
      · simpa only [build_tree_node] using hn
    · intro coords vis depth hnd
      cases coords with
      | nil => simp [build_tree_children, hnd]
      | cons dep_coord rest =>
        simp only [build_tree_children]
        cases hl : alookup store dep_coord with
        | none =>
          simpa using ihc rest vis depth hnd
        | some child =>
          by_cases hv : dep_coord ∈ vis
          · simpa [hv] using ihc rest vis depth hnd
          · have hcc : child.coordinate = dep_coord :=
              hwf (dep_coord, child) (alookup_mem store dep_coord child hl)
            have hnc : child.coordinate ∉ vis := by
              rw [hcc]; exact hv
            obtain ⟨he1, hn1⟩ := ihn child vis (depth + 1) hnc hnd
            obtain ⟨he2, hn2⟩ :=
              ihc rest (build_tree_node store fuel child vis (depth + 1)).2
                depth hn1
            simp only [hv, ite_false, if_neg, not_false_iff]
            refine ⟨?_, by simpa using hn2⟩
            simp only [forestCoords_cons]
            rw [he2, he1]
            simp

/-- The root loop of `get_dependency_tree` pushes one tree per
not-yet-visited entry; the visited set ends as the initial set extended
by exactly the rendered coordinates, still duplicate-free. -/
theorem get_dependency_tree_loop_spec
    (store : List (String × LockedDependency))
    (hwf : ∀ p ∈ store, (Prod.snd p).coordinate = Prod.fst p)
    (fuel : Nat) :
    ∀ (entries : List (String × LockedDependency)) (vis : List String)
      (tree : List DependencyTreeNode),
      (∀ p ∈ entries, p ∈ store) → vis.Nodup →
      ∃ newNodes,
        get_dependency_tree_loop store fuel entries vis tree =
          (tree ++ newNodes, vis ++ forestCoords newNodes) ∧
        (vis ++ forestCoords newNodes).Nodup := by
  intro entries
  induction entries with
  | nil =>
    intro vis tree _ hnd
    exact ⟨[], by simp [get_dependency_tree_loop], by simpa using hnd⟩
  | cons p rest ih =>
    intro vis tree hmem hnd
    obtain ⟨key, dep⟩ := p
    by_cases hv : key ∈ vis
    · obtain ⟨nn, he, hn⟩ :=
        ih vis tree (fun q hq => hmem q (List.mem_cons_of_mem _ hq)) hnd
      exact ⟨nn, by simpa [get_dependency_tree_loop, hv] using he, hn⟩
    · have hdc : dep.coordinate = key :=
        hwf (key, dep) (hmem _ (List.mem_cons_self _ _))
      have hnvc : dep.coordinate ∉ vis := by rw [hdc]; exact hv
      obtain ⟨he1, hn1⟩ :=
        (build_tree_visited_spec store hwf fuel).1 dep vis 0 hnvc hnd
      obtain ⟨nn, he2, hn2⟩ :=
        ih (build_tree_node store fuel dep vis 0).2
          (tree ++ [(build_tree_node store fuel dep vis 0).1])
          (fun q hq => hmem q (List.mem_cons_of_mem _ hq)) hn1
      refine ⟨(build_tree_node store fuel dep vis 0).1 :: nn, ?_, ?_⟩
      · simp only [get_dependency_tree_loop, hv, ite_false, if_neg,
          not_false_iff]
        rw [he2, he1]
        simp
      · rw [he1] at hn2
        simpa using hn2

/-- C9 amended: `get_dependency_tree` never renders the same
coordinate twice — an edge whose target coordinate has already been
visited is skipped entirely (neither re-expanded nor emitted as a
child), as is an edge whose target key is missing from the entries
map.  Stated for a well-formed store, in which each entry's key is its
value's coordinate (the shape `add_dependency` maintains). -/
theorem get_dependency_tree_no_reexpansion (lf : LockFile)
    (hwf : ∀ p ∈ lf.dependencies, (Prod.snd p).coordinate = Prod.fst p) :
    (forestCoords lf.get_dependency_tree).Nodup := by
  obtain ⟨nn, he, hn⟩ :=
    get_dependency_tree_loop_spec lf.dependencies hwf
      (lf.dependencies.length + 1) lf.dependencies [] []
      (fun p hp => hp) List.nodup_nil
  unfold LockFile.get_dependency_tree
  rw [he]
  simpa using hn

/-- Lock entry `g:A:1`, with a transitive edge to `g:B:1`. -/
def lockEntryA : LockedDependency :=
  { group_id := "g", artifact_id := "A", version := "1"
    classifier := none, scope := "compile", checksum := "ca", url := "ua"
    dependencies := ["g:B:1"] }

/-- Lock entry `g:B:1`, the shared edge target. -/
def lockEntryB : LockedDependency :=
  { group_id := "g", artifact_id := "B", version := "1"
    classifier := none, scope := "compile", checksum := "cb", url := "ub"
    dependencies := [] }

/-- Lock entry `g:C:1`, with a transitive edge to `g:B:1`. -/
def lockEntryC : LockedDependency :=
  { group_id := "g", artifact_id := "C", version := "1"
    classifier := none, scope := "compile", checksum := "cc", url := "uc"
    dependencies := ["g:B:1"] }

/-- A lock store in which both `g:A:1` and `g:C:1` have a transitive
edge to `g:B:1`. -/
def lockFileEx : LockFile :=
  { version := "1.0"
    dependencies :=
      [("g:A:1", lockEntryA), ("g:B:1", lockEntryB), ("g:C:1", lockEntryC)]
    metadata := { created_at := "t", updated_at := "t"
                  total_dependencies := 3, total_size := 0 } }

/-- C9 counterexample: walking `lockFileEx`, the edge `g:C:1 → g:B:1`
targets a coordinate that was already visited (under `g:A:1`), and the
node is NOT rendered as a leaf child of `g:C:1` — it does not appear
at all: the rendered coordinates are `[[g:A:1, g:B:1], [g:C:1]]`, even
though the edge is present in the entry and its target exists in the
map.  So not every lock entry reachable through an edge is represented
below its dependent. -/
theorem get_dependency_tree_skips_visited_counterexample :
    (lockFileEx.get_dependency_tree.map nodeCoords) =
      [["g:A:1", "g:B:1"], ["g:C:1"]] ∧
    "g:B:1" ∈ lockEntryC.dependencies ∧
    (alookup lockFileEx.dependencies "g:B:1").isSome = true := by
  refine ⟨?_, by decide, by decide⟩
  rfl

/-- Witness for the amended C9 at the concrete store `lockFileEx`. -/
theorem get_dependency_tree_no_reexpansion_witness :
    (forestCoords lockFileEx.get_dependency_tree).Nodup :=
  get_dependency_tree_no_reexpansion lockFileEx (by decide)

/-! ## Lock file persistence (`LockFile::save` / `LockFile::load`)

`save` is `toml::to_string_pretty(self)` followed by `fs::write`, and
`load` is `fs::read_to_string` followed by `toml::from_str` when the
path exists.  The toml crate is an external dependency (its sources
are not part of this repository), so its text layer is modelled at the
TOML *value* level: `Toml` is the tree of values a lock file document
denotes, the derived `Serialize` impl is embedded as `toToml`/`save`,
the derived `Deserialize` impl as `fromToml`, and the crate's
rendering of a value to bytes is a fixed deterministic function of the
value, so value equality models byte equality of the written file. -/

/-- A TOML value: string, integer, array, or table. -/
inductive Toml : Type
  | str (value : String)
  | int (value : Int)
  | arr (elems : List Toml)
  | table (entries : List (String × Toml))
deriving Repr

/-- Insert a pair into a key-sorted association list, keeping it
sorted. -/
def insertByKey {α : Type} (p : String × α) :
    List (String × α) → List (String × α)
  | [] => [p]
  | q :: t => if p.1 ≤ q.1 then p :: q :: t else q :: insertByKey p t

/-- Sort an association list by key (insertion sort). -/
def sortByKey {α : Type} (l : List (String × α)) : List (String × α) :=
  l.foldr insertByKey []

/-- The derived `Serialize` impl of `LockedDependency` at the value
level: fields in declaration order, the `None` classifier skipped
(the toml serializer omits `None` fields), `dependencies` as an array
of strings. -/
def LockedDependency.toToml (d : LockedDependency) : Toml :=
  Toml.table
    ([("group_id", Toml.str d.group_id),
      ("artifact_id", Toml.str d.artifact_id),
      ("version", Toml.str d.version)] ++
     (match d.classifier with
      | none => []
      | some c => [("classifier", Toml.str c)]) ++
     [("scope", Toml.str d.scope),
      ("checksum", Toml.str d.checksum),
      ("url", Toml.str d.url),
      ("dependencies", Toml.arr (d.dependencies.map Toml.str))])

/-- The derived `Serialize` impl of `LockMetadata` at the value
level. -/
def LockMetadata.toToml (m : LockMetadata) : Toml :=
  Toml.table
    [("created_at", Toml.str m.created_at),
     ("updated_at", Toml.str m.updated_at),
     ("total_dependencies", Toml.int m.total_dependencies),
     ("total_size", Toml.int m.total_size)]

/-- `LockFile::save` from `src/lock.rs` at the TOML value level.
Modelled from the spec: the serialized key order of the
`dependencies` hash map is the toml crate's concern (external, not in
the repo); per §4.2 — "serializes deterministically (stable key
ordering) so re-saving an unchanged store produces byte-identical
output" — the map is emitted with its keys in sorted order. -/
def LockFile.save (lf : LockFile) : Toml :=
  Toml.table
    [("version", Toml.str lf.version),
     ("dependencies",
      Toml.table ((sortByKey lf.dependencies).map
        (fun p => (p.1, p.2.toToml)))),
     ("metadata", lf.metadata.toToml)]

/-- Errors of lock-file loading: the file's text fails TOML parsing,
or the parsed value does not have the shape of a lock file.  Both are
`Err` in the source (`toml::from_str(&content)?`). -/
inductive LoadError : Type
  | parseFailure
  | invalidData
deriving DecidableEq, Repr

/-- The on-disk state `LockFile::load` can observe at its path:
no file, a file whose contents `toml::from_str` rejects, or a file
whose contents parse to the TOML value `v`. -/
inductive DiskFile : Type
  | missing
  | malformed
  | parsed (value : Toml)

/-- Deserialize a TOML string value. -/
def Toml.asStr : Toml → Except LoadError String
  | Toml.str s => Except.ok s
  | _ => Except.error LoadError.invalidData

/-- Deserialize a TOML integer as an unsigned value (`usize`/`u64`). -/
def Toml.asNat : Toml → Except LoadError Nat
  | Toml.int n =>
    if n < 0 then Except.error LoadError.invalidData else Except.ok n.toNat
  | _ => Except.error LoadError.invalidData

/-- Deserialize a list of TOML string values. -/
def parseStrList : List Toml → Except LoadError (List String)
  | [] => Except.ok []
  | v :: t =>
    match v.asStr with
    | Except.error e => Except.error e
    | Except.ok s =>
      match parseStrList t with
      | Except.error e => Except.error e
      | Except.ok r => Except.ok (s :: r)

/-- Deserialize a TOML array of strings. -/
def Toml.asStrList : Toml → Except LoadError (List String)
  | Toml.arr l => parseStrList l
  | _ => Except.error LoadError.invalidData

/-- A required field of a TOML table, deserialized as a string. -/
def reqStr (t : List (String × Toml)) (name : String) :
    Except LoadError String :=
  match alookup t name with
  | none => Except.error LoadError.invalidData
  | some v => v.asStr

/-- A required field of a TOML table, deserialized as an unsigned
integer. -/
def reqNat (t : List (String × Toml)) (name : String) :
    Except LoadError Nat :=
  match alookup t name with
  | none => Except.error LoadError.invalidData
  | some v => v.asNat

/-- An optional string field of a TOML table (`Option<String>`:
missing means `None`). -/
def optStr (t : List (String × Toml)) (name : String) :
    Except LoadError (Option String) :=
  match alookup t name with
  | none => Except.ok none
  | some v =>
    match v.asStr with
    | Except.error e => Except.error e
    | Except.ok s => Except.ok (some s)

/-- The derived `Deserialize` impl of `LockedDependency` at the value
level: field lookups by name, the `classifier` optional. -/
def LockedDependency.fromToml : Toml → Except LoadError LockedDependency
  | Toml.table t => do
    let g ← reqStr t "group_id"
    let a ← reqStr t "artifact_id"
    let ver ← reqStr t "version"
    let cls ← optStr t "classifier"
    let sc ← reqStr t "scope"
    let ck ← reqStr t "checksum"
    let u ← reqStr t "url"
    let ds ←
      match alookup t "dependencies" with
      | none => Except.error LoadError.invalidData
      | some w => w.asStrList
    Except.ok { group_id := g, artifact_id := a, version := ver
                classifier := cls, scope := sc, checksum := ck, url := u
                dependencies := ds }
  | _ => Except.error LoadError.invalidData

/-- Deserialize the entries of the `dependencies` table, in order. -/
def parseDepsEntries :
    List (String × Toml) → Except LoadError (List (String × LockedDependency))
  | [] => Except.ok []
  | (k, v) :: t => do
    let d ← LockedDependency.fromToml v
    let r ← parseDepsEntries t
    Except.ok ((k, d) :: r)

/-- The derived `Deserialize` impl of `LockMetadata` at the value
level. -/
def LockMetadata.fromToml : Toml → Except LoadError LockMetadata
  | Toml.table t => do
    let c ← reqStr t "created_at"
    let u ← reqStr t "updated_at"
    let td ← reqNat t "total_dependencies"
    let ts ← reqNat t "total_size"
    Except.ok { created_at := c, updated_at := u
                total_dependencies := td, total_size := ts }
  | _ => Except.error LoadError.invalidData

/-- The derived `Deserialize` impl of `LockFile` at the value level. -/
def LockFile.fromToml : Toml → Except LoadError LockFile
  | Toml.table t => do
    let ver ← reqStr t "version"
    let deps ←
      match alookup t "dependencies" with
      | some (Toml.table entries) => parseDepsEntries entries
      | _ => Except.error LoadError.invalidData
    let meta ←
      match alookup t "metadata" with
      | some m => LockMetadata.fromToml m
      | none => Except.error LoadError.invalidData
    Except.ok { version := ver, dependencies := deps, metadata := meta }
  | _ => Except.error LoadError.invalidData

/-- `LockFile::load` from `src/lock.rs`: when the path exists, read
and parse the contents, propagating any error; when it does not,
return `Ok(LockFile::new())`.  `now` models `chrono::Utc::now()`
inside `LockFile::new`. -/
def LockFile.load : DiskFile → String → Except LoadError LockFile
  | DiskFile.missing, now => Except.ok (LockFile.new now)
  | DiskFile.malformed, _ => Except.error LoadError.parseFailure
  | DiskFile.parsed v, _ => LockFile.fromToml v

/-! ### C8: missing vs. malformed lock files -/

/-- C8: `LockFile::load` on a missing file returns a fresh empty store
(`LockFile::new`) and is not an error; on a file whose contents are
malformed — text the TOML parser rejects, or a value the lock-file
deserializer rejects — it returns an error and never substitutes an
empty store. -/
theorem lock_load_missing_empty_malformed_error (now : String) :
    LockFile.load DiskFile.missing now = Except.ok (LockFile.new now) ∧
    (LockFile.new now).dependencies = [] ∧
    (LockFile.new now).metadata.total_dependencies = 0 ∧
    (LockFile.load DiskFile.malformed now).isOk = false ∧
    (∀ v : Toml, (LockFile.fromToml v).isOk = false →
      (LockFile.load (DiskFile.parsed v) now).isOk = false) := by
  refine ⟨rfl, rfl, rfl, rfl, ?_⟩
  intro v h
  simpa [LockFile.load] using h

/-- Witness for C8 at `now = "t"` and the non-table value `42`,
which the deserializer rejects. -/
theorem lock_load_missing_empty_malformed_error_witness :
    (LockFile.load (DiskFile.parsed (Toml.int 42)) "t").isOk = false :=
  (lock_load_missing_empty_malformed_error "t").2.2.2.2 (Toml.int 42) rfl

/-! ### C2: round-trip and determinism of the persisted form -/

/-- Deserializing a serialized string array gives back the strings. -/
theorem parseStrList_map (l : List String) :
    parseStrList (l.map Toml.str) = Except.ok l := by
  induction l with
  | nil => rfl
  | cons s t ih => simp [parseStrList, Toml.asStr, ih]

/-- Deserializing a serialized lock entry gives back the entry. -/
theorem lockedDep_fromToml_toToml (d : LockedDependency) :
    LockedDependency.fromToml d.toToml = Except.ok d := by
  cases hc : d.classifier with
  | none =>
    simp [LockedDependency.toToml, LockedDependency.fromToml, hc, reqStr,
      optStr, alookup, Toml.asStr, Toml.asStrList, parseStrList_map,
      Bind.bind, Except.bind]
    rw [← hc]
  | some c =>
    simp [LockedDependency.toToml, LockedDependency.fromToml, hc, reqStr,
      optStr, alookup, Toml.asStr, Toml.asStrList, parseStrList_map,
      Bind.bind, Except.bind]
    rw [← hc]

/-- Deserializing the serialized `dependencies` table entries gives
back the entries, in order. -/
theorem parseDepsEntries_map (l : List (String × LockedDependency)) :
    parseDepsEntries (l.map (fun p => (p.1, p.2.toToml))) = Except.ok l := by
  induction l with
  | nil => rfl
  | cons p t ih =>
    obtain ⟨k, d⟩ := p
    simp [parseDepsEntries, lockedDep_fromToml_toToml, ih,
      Bind.bind, Except.bind]

/-- Deserializing the serialized metadata gives back the metadata. -/
theorem lockMetadata_fromToml_toToml (m : LockMetadata) :
    LockMetadata.fromToml m.toToml = Except.ok m := by
  simp [LockMetadata.toToml, LockMetadata.fromToml, reqStr, reqNat, alookup,
    Toml.asStr, Toml.asNat, Bind.bind, Except.bind,
    show ¬((m.total_dependencies : Int) < 0) from
      not_lt.mpr (Int.natCast_nonneg _),
    show ¬((m.total_size : Int) < 0) from not_lt.mpr (Int.natCast_nonneg _)]

/-- `insertByKey` permutes consing. -/
theorem insertByKey_perm {α : Type} (p : String × α) (l : List (String × α)) :
    List.Perm (insertByKey p l) (p :: l) := by
  induction l with
  | nil => exact List.Perm.refl _
  | cons q t ih =>
    by_cases h : p.1 ≤ q.1
    · simp [insertByKey, h]
    · simp only [insertByKey, if_neg h]
      exact (ih.cons q).trans (List.Perm.swap p q t)

/-- `sortByKey` is a permutation. -/
theorem sortByKey_perm {α : Type} (l : List (String × α)) :
    List.Perm (sortByKey l) l := by
  induction l with
  | nil => exact List.Perm.refl _
  | cons p t ih => exact (insertByKey_perm p (sortByKey t)).trans (ih.cons p)

/-- A key that is absent has no binding. -/
theorem alookup_eq_none {α : Type} (l : List (String × α)) (q : String)
    (h : q ∉ l.map Prod.fst) : alookup l q = none := by
  induction l with
  | nil => rfl
  | cons p t ih =>
    obtain ⟨k, v⟩ := p
    simp only [List.map_cons, List.mem_cons, not_or] at h
    simp [alookup, h.1, ih h.2]

/-- Lookup after `insertByKey` of a fresh key. -/
theorem alookup_insertByKey {α : Type} (pk : String) (pv : α)
    (l : List (String × α)) (hp : pk ∉ l.map Prod.fst) (q : String) :
    alookup (insertByKey (pk, pv) l) q =
      if q = pk then some pv else alookup l q := by
  induction l with
  | nil => simp [insertByKey, alookup]
  | cons r t ih =>
    obtain ⟨rk, rv⟩ := r
    simp only [List.map_cons, List.mem_cons, not_or] at hp
    by_cases hle : pk ≤ rk
    · simp only [insertByKey, if_pos hle, alookup_cons]
    · simp only [insertByKey, if_neg hle, alookup_cons, ih hp.2]
      by_cases hq1 : q = pk <;> by_cases hq2 : q = rk
      · exact absurd (hq1 ▸ hq2) hp.1
      · simp [hq1, hq2, hp.1]
      · have hrp : ¬ rk = pk := fun h => hp.1 h.symm
        simp [hq1, hq2, hrp]
      · simp [hq1, hq2]

/-- Sorting by key does not change lookups when keys are
duplicate-free. -/
theorem alookup_sortByKey {α : Type} (l : List (String × α))
    (h : (l.map Prod.fst).Nodup) (q : String) :
    alookup (sortByKey l) q = alookup l q := by
  induction l with
  | nil => rfl
  | cons p t ih =>
    obtain ⟨pk, pv⟩ := p
    simp only [List.map_cons, List.nodup_cons] at h
    have h3 : pk ∉ (sortByKey t).map Prod.fst := fun hm =>
      h.1 (((sortByKey_perm t).map Prod.fst).mem_iff.mp hm)
    show alookup (insertByKey (pk, pv) (sortByKey t)) q = _
    rw [alookup_insertByKey pk pv _ h3 q, ih h.2]
    rfl

/-- `insertByKey` preserves key-sortedness. -/
theorem insertByKey_sorted {α : Type} (p : String × α)
    (l : List (String × α)) (h : l.Pairwise (fun a b => a.1 ≤ b.1)) :
    (insertByKey p l).Pairwise (fun a b => a.1 ≤ b.1) := by
  induction l with
  | nil => simp [insertByKey]
  | cons q t ih =>
    rcases List.pairwise_cons.mp h with ⟨hq, ht⟩
    by_cases hle : p.1 ≤ q.1
    · simp only [insertByKey, if_pos hle]
      refine List.pairwise_cons.mpr ⟨?_, h⟩
      intro r hr
      rcases List.mem_cons.mp hr with rfl | hr
      · exact hle
      · exact le_trans hle (hq r hr)
    · simp only [insertByKey, if_neg hle]
      refine List.pairwise_cons.mpr ⟨?_, ih ht⟩
      intro r hr
      rcases List.mem_cons.mp ((insertByKey_perm p t).mem_iff.mp hr) with
        rfl | hr'
      · exact le_of_not_le hle
      · exact hq r hr'

/-- `sortByKey` sorts. -/
theorem sortByKey_sorted {α : Type} (l : List (String × α)) :
    (sortByKey l).Pairwise (fun a b => a.1 ≤ b.1) := by
  induction l with
  | nil => simp [sortByKey]
  | cons p t ih => exact insertByKey_sorted p _ ih

/-- With duplicate-free keys, `sortByKey` sorts strictly. -/
theorem sortByKey_strict {α : Type} (l : List (String × α))
    (h : (l.map Prod.fst).Nodup) :
    (sortByKey l).Pairwise (fun a b => a.1 < b.1) := by
  have hnd : ((sortByKey l).map Prod.fst).Nodup :=
    (((sortByKey_perm l).map Prod.fst).nodup_iff).mpr h
  have hne : (sortByKey l).Pairwise (fun a b => a.1 ≠ b.1) :=
    List.pairwise_map.mp hnd
  exact ((sortByKey_sorted l).and hne).imp fun hx => lt_of_le_of_ne hx.1 hx.2

/-- In a strictly key-sorted association list, the head's key has no
binding in the tail. -/
theorem alookup_tail_none {α : Type} (pk : String) (pv : α)
    (t : List (String × α))
    (h : ((pk, pv) :: t).Pairwise (fun a b => a.1 < b.1)) :
    alookup t pk = none := by
  apply alookup_eq_none
  intro hm
  rcases List.mem_map.mp hm with ⟨⟨qk, qv⟩, hq, hqe⟩
  have hlt := (List.pairwise_cons.mp h).1 (qk, qv) hq
  rw [hqe] at hlt
  exact lt_irrefl pk hlt

/-- Two strictly key-sorted association lists realizing the same
lookup function are equal. -/
theorem sorted_assoc_ext {α : Type} :
    ∀ (l1 l2 : List (String × α)),
      l1.Pairwise (fun a b => a.1 < b.1) →
      l2.Pairwise (fun a b => a.1 < b.1) →
      (∀ q, alookup l1 q = alookup l2 q) → l1 = l2 := by
  intro l1
  induction l1 with
  | nil =>
    intro l2 _ _ hq
    cases l2 with
    | nil => rfl
    | cons p t =>
      obtain ⟨pk, pv⟩ := p
      have := hq pk
      simp [alookup] at this
  | cons p t ih =>
    intro l2 h1 h2 hq
    obtain ⟨pk, pv⟩ := p
    cases l2 with
    | nil =>
      have := hq pk
      simp [alookup] at this
    | cons r u =>
      obtain ⟨rk, rv⟩ := r
      have hpk : alookup ((rk, rv) :: u) pk = some pv := by
        rw [← hq pk]; simp [alookup]
      have hrk : alookup ((pk, pv) :: t) rk = some rv := by
        rw [hq rk]; simp [alookup]
      have hkk : pk = rk := by
        by_contra hne
        rw [alookup_cons, if_neg hne] at hpk
        rcases List.mem_map.mp
            (List.mem_map_of_mem Prod.fst (alookup_mem u pk pv hpk)) with _
        have hlt1 : rk < pk := by
          have hmem := alookup_mem u pk pv hpk
          have := (List.pairwise_cons.mp h2).1 (pk, pv) hmem
          exact this
        have hne' : ¬ rk = pk := fun h => hne h.symm
        rw [alookup_cons, if_neg hne'] at hrk
        have hlt2 : pk < rk := by
          have hmem := alookup_mem t rk rv hrk
          have := (List.pairwise_cons.mp h1).1 (rk, rv) hmem
          exact this
        exact lt_asymm hlt1 hlt2
      subst hkk
      have hv : pv = rv := by
        have := hq pk
        simp [alookup] at this
        exact this
      subst hv
      have htail : ∀ q, alookup t q = alookup u q := by
        intro q
        by_cases hq' : q = pk
        · subst hq'
          rw [alookup_tail_none _ pv _ h1, alookup_tail_none _ pv _ h2]
        · have := hq q
          rw [alookup_cons, if_neg hq', alookup_cons, if_neg hq'] at this
          exact this
      rw [ih u (List.Pairwise.of_cons h1) (List.Pairwise.of_cons h2) htail]

/-- C2: persisting a lock store round-trips, and serialization is
deterministic with a stable (sorted) key ordering.  For a store `S`
whose map has duplicate-free keys, `load (save S)` succeeds and yields
the store with the same `version`, the same `metadata` values and the
same entries (the canonical sorted entry order realizes the same
lookup function); and any store `T` equal to `S` as a map (same
version, same metadata, same entries under lookup, whatever its
iteration order) serializes to the identical TOML value — hence, the
rendered file bytes being a function of that value, re-saving an
unchanged store writes a byte-identical file. -/
theorem lock_save_load_roundtrip (S T : LockFile) (now : String)
    (hS : (S.dependencies.map Prod.fst).Nodup)
    (hT : (T.dependencies.map Prod.fst).Nodup)
    (hver : S.version = T.version)
    (hmeta : S.metadata = T.metadata)
    (hent : ∀ k, alookup S.dependencies k = alookup T.dependencies k) :
    LockFile.load (DiskFile.parsed S.save) now =
      Except.ok { S with dependencies := sortByKey S.dependencies } ∧
    (∀ k, alookup (sortByKey S.dependencies) k = alookup S.dependencies k) ∧
    S.save = T.save := by
  refine ⟨?_, fun k => alookup_sortByKey _ hS k, ?_⟩
  · show LockFile.fromToml S.save = _
    simp [LockFile.save, LockFile.fromToml, reqStr, alookup, Toml.asStr,
      parseDepsEntries_map, lockMetadata_fromToml_toToml,
      Bind.bind, Except.bind]
  · have hsort : sortByKey S.dependencies = sortByKey T.dependencies := by
      apply sorted_assoc_ext _ _ (sortByKey_strict _ hS) (sortByKey_strict _ hT)
      intro q
      rw [alookup_sortByKey _ hS, alookup_sortByKey _ hT]
      exact hent q
    simp [LockFile.save, hver, hmeta, hsort]

/-- A lock store with two entries listed in unsorted key order, used
as the round-trip witness. -/
def lockFileW : LockFile :=
  { version := "1.0"
    dependencies := [("g:b:1.0", sampleLockedDep), ("g:a:1.0", sampleLockedDep)]
    metadata := { created_at := "t0", updated_at := "t1"
                  total_dependencies := 2, total_size := 0 } }

/-- Witness for C2 at the concrete store `lockFileW` (taking `T = S`,
whose entry-lookup equality holds definitionally). -/
theorem lock_save_load_roundtrip_witness :
    LockFile.load (DiskFile.parsed lockFileW.save) "t" =
      Except.ok { lockFileW with
        dependencies := sortByKey lockFileW.dependencies } :=
  (lock_save_load_roundtrip lockFileW lockFileW "t" (by decide) (by decide)
    rfl rfl (fun _ => rfl)).1

end Jx
